import Mathlib

/-!
# Verification of the xunit-autolabeler snippet/test correlation engine

Shallow embedding of the core of `xunit-autolabeler-v2/ast_parser`
(`core/analyze.py`, `core/cli.py`, `python/test_parser.py`) in Lean 4,
together with theorems settling the specification claims about it.

Python dicts/sets are modelled as insertion-ordered association lists /
first-occurrence-deduplicated lists; all properties proved about them are
membership-level, hence independent of iteration order.
-/

set_option autoImplicit false

namespace AstParser

/-- First-occurrence deduplication, modelling the observable content of a
Python `set(...)` built by insertion (membership and cardinality; Python
set iteration order is unspecified, so only order-independent facts are
proved about values flowing through it). -/
def pyDedup : List String → List String
  | [] => []
  | x :: rest => x :: (pyDedup rest).filter (fun y => y ≠ x)

/-!
## `core/analyze.py`, lines 30–41: deduplication of source methods

```python
source_methods = [m for m in json_methods if m['region_tags']]
source_method_keys = set()
source_methods_deduped = []
for m in source_methods:
    key = ','.join(m['region_tags'])
    if key not in source_method_keys:
        source_methods_deduped.append(m)
        source_method_keys.add(key)
source_methods = source_methods_deduped
```
-/

/-- A snippet-method record as it appears in the `polyglot_drift_data.json`
artifact consumed by `analyze_json` (fields the dedup stage touches). -/
structure JsonMethod where
  name : String
  source_path : String
  region_tags : List String
  test_methods : List (String × String)
  deriving DecidableEq, Repr

/-- The dedup key of `analyze.py` line 36: `','.join(m['region_tags'])`. -/
def methodKey (m : JsonMethod) : String :=
  String.intercalate "," m.region_tags

/-- The `for m in source_methods` loop of `analyze.py` lines 35–39, with the
`source_method_keys` set carried as the list of keys seen so far. -/
def dedupeLoop : List JsonMethod → List String → List JsonMethod
  | [], _ => []
  | m :: rest, seen =>
    if methodKey m ∈ seen then dedupeLoop rest seen
    else m :: dedupeLoop rest (methodKey m :: seen)

/-- `analyze.py` lines 30–41: keep only methods with a non-empty
`region_tags` list, then deduplicate by comma-joined region-tag key,
first occurrence winning. -/
def dedupeSourceMethods (json_methods : List JsonMethod) : List JsonMethod :=
  dedupeLoop (json_methods.filter (fun m => m.region_tags ≠ [])) []

/-!
## `core/analyze.py`, lines 14–22 and 51–65: region-tag sets

`grep_tags` and `ignored_tags` are accumulated from
`polyglot_parser.get_region_tag_regions(source_file)` for each source file
(the per-file parser outputs appear here as inputs, since `polyglot_parser`
is an external collaborator of this stage), `source_tags` is the union of the
(deduplicated) source methods' `region_tags`, and then:

```python
grep_tags = [x for x in grep_tags if x not in ignored_tags]
source_tags = [x for x in source_tags if x not in ignored_tags]
ignored_tags = ignored_tags.union(
    yaml_utils.get_untested_region_tags(root_dir))
```
-/

/-- The pair returned by `polyglot_parser.get_region_tag_regions` for one
source file: region tuples `(tag_name, start_line, end_line)` and the names
flagged as ignored by an in-source marker. -/
structure ParserOutput where
  region_tags : List (String × Nat × Nat)
  ignored_tag_names : List String
  deriving DecidableEq, Repr

/-- `analyze.py` lines 14–22 and 51–65: build `grep_tags`, `source_tags`
and `ignored_tags`, filter the first two by the marker-ignored names, and
only afterwards union the YAML-ignored names into `ignored_tags`.
Returns `(grep_tags, source_tags, ignored_tags)`. -/
def analyzeTagSets (per_file : List ParserOutput)
    (source_methods : List JsonMethod) (yaml_ignored : List String) :
    List String × List String × List String :=
  let grep_tags := pyDedup (per_file.flatMap (fun o => o.region_tags.map (·.1)))
  let ignored_tags := pyDedup (per_file.flatMap (fun o => o.ignored_tag_names))
  let source_tags := pyDedup (source_methods.flatMap (fun m => m.region_tags))
  (grep_tags.filter (fun t => t ∉ ignored_tags),
   source_tags.filter (fun t => t ∉ ignored_tags),
   pyDedup (ignored_tags ++ yaml_ignored))

/-!
## Path helpers used by `python/test_parser.py`
-/

/-- `os.path.dirname` (POSIX): everything up to the last `/`, with trailing
slashes stripped unless the result is only slashes. -/
def os_path_dirname (p : String) : String :=
  let head := (p.data.reverse.dropWhile (fun c => c ≠ '/')).reverse
  if head ≠ [] ∧ head.any (fun c => c ≠ '/') then
    ⟨(head.reverse.dropWhile (fun c => c = '/')).reverse⟩
  else ⟨head⟩

/-- `os.path.abspath(p)` relative to the process working directory `cwd`:
an already-absolute path is returned as-is, a relative one is joined onto
`cwd`. (Normalisation of `.`/`..` segments is not modelled; no path in this
development contains them.) -/
def os_path_abspath (cwd p : String) : String :=
  if "/".data.isPrefixOf p.data then p else cwd ++ "/" ++ p

/-- Python's substring test `needle in hay` on character lists. -/
def charsInfix (needle : List Char) : List Char → Bool
  | [] => needle.isEmpty
  | c :: rest => needle.isPrefixOf (c :: rest) || charsInfix needle rest

/-- Python's substring test `needle in hay` on strings. -/
def strContains (hay needle : String) : Bool :=
  charsInfix needle.data hay.data

/-- The specification's path-containment notion ("lies under the same root
directory"): `dir` is a proper ancestor directory of `p`. This definition
follows the spec's words, to be compared against the code's substring
test. -/
def spec_path_under (dir p : String) : Bool :=
  (dir ++ "/").data.isPrefixOf p.data

/-!
## `python/test_parser.py`, lines 178–228: `store_tests_on_methods`

```python
for method in source_methods:
    drift = method.drift
    source_root = os.path.dirname(drift.source_path)
    keys = []
    if drift.parser == 'direct_invocation':
        keys = [(drift.class_name, drift.method_name)]
    elif drift.parser == 'webapp2_router':
        keys = [(drift.http_methods[0], drift.url)]
    elif drift.parser == 'flask_router':
        keys = [(http_method, drift.url)
                for http_method in drift.http_methods]
    new_test_methods = list(method.drift.test_methods)
    for key in keys:
        if key in test_to_method_key_map:
            if test_to_method_key_map[key]:
                source_paths = set([entry[0] for entry in
                                    test_to_method_key_map[key]])
                if len(source_paths) != 1:
                    raise ValueError(...)
                if source_root in os.path.abspath(list(source_paths)[0]):
                    new_test_methods += test_to_method_key_map[key]
    method.drift = method.drift._replace(test_methods=new_test_methods)
```
-/

/-- The `drift` namedtuple attached to each snippet method (the fields
`store_tests_on_methods` reads or writes). -/
structure Drift where
  name : String
  class_name : String
  method_name : String
  parser : String
  source_path : String
  url : String
  http_methods : List String
  test_methods : List (String × String)
  deriving DecidableEq, Repr

/-- A test key: `(class_name, method_name)` or `(http_method, url)`. -/
abbrev TestKey := String × String

/-- A test-key-map entry value: `(test_file_path, test_method_name)`. -/
abbrev TestEntry := String × String

/-- The `test_to_method_key_map` dict, as an insertion-ordered
association list. -/
abbrev TestKeyMap := List (TestKey × List TestEntry)

/-- Dict lookup: `key in map` / `map[key]`. -/
def lookupKey (m : TestKeyMap) (k : TestKey) : Option (List TestEntry) :=
  match m with
  | [] => none
  | (k₂, v) :: rest => if k₂ = k then some v else lookupKey rest k

/-- `test_parser.py` lines 201–208: the lookup keys of one snippet method.
`none` models the `IndexError` a `webapp2_router` method with an empty
`http_methods` list raises at `drift.http_methods[0]`; a parser string
matching none of the three branches leaves `keys = []`. -/
def getLookupKeys (d : Drift) : Option (List TestKey) :=
  if d.parser = "direct_invocation" then
    some [(d.class_name, d.method_name)]
  else if d.parser = "webapp2_router" then
    match d.http_methods with
    | [] => none
    | m :: _ => some [(m, d.url)]
  else if d.parser = "flask_router" then
    some (d.http_methods.map (fun m => (m, d.url)))
  else some []

/-- `test_parser.py` lines 211–226: the `for key in keys` loop, accumulating
`new_test_methods` (started at the method's own `test_methods`).
`.error` models the `ValueError` raised when a matched non-empty entry
carries more than one distinct test source path. -/
def collectTestMethods (cwd : String) (kmap : TestKeyMap)
    (source_root : String) :
    List TestKey → List TestEntry → Except String (List TestEntry)
  | [], acc => .ok acc
  | k :: rest, acc =>
    match lookupKey kmap k with
    | none => collectTestMethods cwd kmap source_root rest acc
    | some entries =>
      if entries = [] then collectTestMethods cwd kmap source_root rest acc
      else
        let source_paths := pyDedup (entries.map (·.1))
        if source_paths.length ≠ 1 then
          .error ("Invalid test-method map: source filepaths " ++
            "within a map entry must be identical!")
        else if strContains (os_path_abspath cwd (source_paths.headD ""))
            source_root then
          collectTestMethods cwd kmap source_root rest (acc ++ entries)
        else
          collectTestMethods cwd kmap source_root rest acc

/-- One iteration of the `for method in source_methods` loop: compute the
keys, fold over them, and `_replace` the drift's `test_methods`. -/
def processMethod (cwd : String) (kmap : TestKeyMap) (method : Drift) :
    Except String Drift :=
  match getLookupKeys method with
  | none => .error "IndexError: list index out of range"
  | some keys =>
    match collectTestMethods cwd kmap (os_path_dirname method.source_path)
        keys method.test_methods with
    | .error e => .error e
    | .ok tms => .ok { method with test_methods := tms }

/-- `test_parser.py` lines 178–228: `store_tests_on_methods`, with the
process working directory `cwd` (consulted by `os.path.abspath`) made
explicit. An exception raised on any method aborts the whole loop. -/
def store_tests_on_methods (cwd : String) (source_methods : List Drift)
    (kmap : TestKeyMap) : Except String (List Drift) :=
  match source_methods with
  | [] => .ok []
  | d :: rest =>
    match processMethod cwd kmap d with
    | .error e => .error e
    | .ok d₂ =>
      match store_tests_on_methods cwd rest kmap with
      | .error e => .error e
      | .ok rest₂ => .ok (d₂ :: rest₂)

/-!
## `python/test_parser.py`, lines 26–88: test-method extraction

The Python `ast` node shapes this code dispatches on (via
`hasattr`/`type(...)` checks) are embedded as an inductive type. A node
carries exactly the attributes the corresponding `ast` class has, so each
`hasattr(expr, a)` check of the source becomes a `match` on the
constructors owning attribute `a`.
-/

/-- Expression/statement nodes of the Python `ast` module that
`test_parser.py` inspects: `Name` (attr `id`), `Str` (attr `s`),
`Attribute` (attrs `value`, `attr`), `Call` (attrs `func`, `args`),
`Expr` statements (attr `value`), `Assert` (attr `test`), `Compare`
(attrs `left`, `comparators`), `With`/`For` (attr `body`), and anything
else (`otherNode`: none of the inspected attributes). -/
inductive PyExpr where
  | name (id : String)
  | strLit (s : String)
  | attribute (value : PyExpr) (attr : String)
  | call (func : PyExpr) (args : List PyExpr)
  | exprStmt (value : PyExpr)
  | assertStmt (test : PyExpr)
  | compare (left : PyExpr) (comparators : List PyExpr)
  | withStmt (body : List PyExpr)
  | forStmt (body : List PyExpr)
  | otherNode
  deriving Repr

/-- Top-level nodes of a parsed test file: `FunctionDef` (attrs `name`,
`body`), `ClassDef` (attrs `name`, `body` of nested nodes), or any other
top-level node (no `name` attribute). -/
inductive PyNode where
  | functionDef (name : String) (body : List PyExpr)
  | classDef (name : String) (body : List PyNode)
  | otherTop
  deriving Repr

/-- The `node.name` attribute, when the node has one. -/
def nodeName : PyNode → Option String
  | .functionDef n _ => some n
  | .classDef n _ => some n
  | .otherTop => none

/-- The filter of `_get_test_nodes`: `hasattr(node, 'name') and
node.name.startswith('test_')`. -/
def isTestNode (n : PyNode) : Bool :=
  match nodeName n with
  | some nm => "test_".data.isPrefixOf nm.data
  | none => false

/-- `test_parser.py` lines 26–45, `_get_test_nodes`: every top-level node
plus, for class definitions, the class body members, filtered down to the
named nodes whose name starts with `test_`. -/
def get_test_nodes (parsed_nodes : List PyNode) : List PyNode :=
  (parsed_nodes.flatMap (fun n =>
    n :: match n with
    | .classDef _ body => body
    | _ => [])).filter isTestNode

/-- `test_parser.py` lines 70–76: the duplicate-name check over the test
nodes, carrying the `used_test_names` set as a list. -/
def verifyUniqueNames (test_path : String) :
    List PyNode → List String → Except String Unit
  | [], _ => .ok ()
  | n :: rest, used =>
    let nm := (nodeName n).getD ""
    if nm ∈ used then
      .error ("Test name " ++ nm ++ " in file " ++ test_path ++
        " must be unique.")
    else verifyUniqueNames test_path rest (nm :: used)

/-- `test_parser.py` lines 48–88, `get_test_methods`. The file appears as
`Option (List PyNode)`: `none` models an `IOError` on open/read, on which
the `except` branch writes a warning to stderr (I/O is not modelled) and
returns `[]`; `some parsed_nodes` is the parsed module's child nodes.
A `ValueError` from the duplicate-name check is not an `IOError`, so it
propagates out of the `try` block (`.error`). -/
def get_test_methods (test_path : String)
    (file_nodes : Option (List PyNode)) : Except String (List PyNode) :=
  match file_nodes with
  | none => .ok []
  | some parsed_nodes =>
    let test_nodes := get_test_nodes parsed_nodes
    match verifyUniqueNames test_path test_nodes [] with
    | .error e => .error e
    | .ok _ => .ok test_nodes

/-!
## `python/test_parser.py`, lines 91–175: `get_test_key_to_snippet_map`
-/

/-- Modelled from the spec: the `drift_test.DriftTest` record (the
`drift_test` module is not among the sources) — a test key identifies a
snippet either by `(class_name, method_name)` for a direct invocation or
by `(http_method, url)` for an HTTP-routed call (spec §3, TestKey). -/
inductive DriftTest where
  | direct (class_name method_name : String)
  | http (url : String) (http_method : String)
  deriving DecidableEq, Repr

/-- Modelled from the spec: `DriftTest.get_key_tuple()` yields the join
key used in the test-key map — `(class_name, method_name)` for direct
invocations, `(http_method, url)` for HTTP-routed calls. -/
def DriftTest.get_key_tuple : DriftTest → String × String
  | .direct c m => (c, m)
  | .http u v => (v, u)

mutual
/-- `test_parser.py` lines 109–161, the nested `__recursor__`, with the
name sets `constants.HTTP_CLASS_NAMES` / `constants.HTTP_METHOD_NAMES`
(whose module is not among the sources) passed in as `cls` / `mth`.
`none` models an uncaught Python exception: the `IndexError` from
`expr.args[0]` on a zero-argument HTTP-client call, the `IndexError` from
`expr.test.comparators[0]` on an empty comparator list, and the
`AttributeError` from `func.attr` when a `Call`'s `func` is a node with a
`value` attribute but no `attr` attribute. -/
def recursor (cls mth : List String) : PyExpr → Option (List DriftTest)
  | .name _ => some []
  | .strLit _ => some []
  | .otherNode => some []
  | .compare _ _ => some []
  | .attribute v attr =>
    match v with
    | .name id => some [.direct id attr]
    | _ => recursor cls mth v
  | .call f args =>
    match f with
    | .attribute fv fattr =>
      match fv with
      | .name id =>
        if id ∈ cls ∧ fattr ∈ mth then
          match args with
          | [] => none
          | a :: _ =>
            match a with
            | .strLit s => some [.http s fattr]
            | _ => recursor cls mth f
        else recursor cls mth f
      | _ => recursor cls mth f
    | .exprStmt v =>
      match v with
      | .name id => if id ∈ cls then none else recursor cls mth f
      | _ => recursor cls mth f
    | _ => recursor cls mth f
  | .exprStmt v => recursor cls mth v
  | .assertStmt t =>
    match t with
    | .compare l cs =>
      match cs with
      | [] => none
      | c :: _ =>
        match recursor cls mth c, recursor cls mth l with
        | some r₁, some r₂ => some (r₁ ++ r₂)
        | _, _ => none
    | _ => some []
  | .withStmt body => recursorList cls mth body
  | .forStmt body => recursorList cls mth body

/-- The `for subexpr in expr.body` accumulation inside `__recursor__`'s
`With`/`For` branch (every `DriftTest` object is truthy, so the
`if subexpr` filter keeps all results). -/
def recursorList (cls mth : List String) : List PyExpr → Option (List DriftTest)
  | [] => some []
  | e :: rest =>
    match recursor cls mth e, recursorList cls mth rest with
    | some r₁, some r₂ => some (r₁ ++ r₂)
    | _, _ => none
end

/-- Statement-level nodes: `ast.parse` never produces one of these as the
`func` of a `Call` (or anywhere an expression is expected). -/
def isStmtNode : PyExpr → Bool
  | .exprStmt _ => true
  | .assertStmt _ => true
  | .withStmt _ => true
  | .forStmt _ => true
  | _ => false

mutual
/-- Shapes producible by Python's `ast.parse`: a `Call`'s `func` is an
expression (never a statement node) and a `Compare` has at least one
comparator. -/
def wfExpr : PyExpr → Bool
  | .name _ => true
  | .strLit _ => true
  | .otherNode => true
  | .attribute v _ => wfExpr v
  | .call f args => !isStmtNode f && wfExpr f && wfExprList args
  | .exprStmt v => wfExpr v
  | .assertStmt t => wfExpr t
  | .compare l cs => wfExpr l && wfExprList cs && !cs.isEmpty
  | .withStmt body => wfExprList body
  | .forStmt body => wfExprList body

def wfExprList : List PyExpr → Bool
  | [] => true
  | e :: rest => wfExpr e && wfExprList rest
end

mutual
/-- The totality precondition of `__recursor__`: no subexpression is a
call `receiver.verb(...)` with zero arguments whose receiver identifier is
among the known HTTP client names and whose verb is among the known HTTP
method names. -/
def noZeroArgHttpCall (cls mth : List String) : PyExpr → Bool
  | .name _ => true
  | .strLit _ => true
  | .otherNode => true
  | .attribute v _ => noZeroArgHttpCall cls mth v
  | .call f args =>
    (match f, args with
     | .attribute (.name id) fattr, [] =>
       !(decide (id ∈ cls) && decide (fattr ∈ mth))
     | _, _ => true) &&
    noZeroArgHttpCall cls mth f && noZeroArgHttpCallList cls mth args
  | .exprStmt v => noZeroArgHttpCall cls mth v
  | .assertStmt t => noZeroArgHttpCall cls mth t
  | .compare l cs =>
    noZeroArgHttpCall cls mth l && noZeroArgHttpCallList cls mth cs
  | .withStmt body => noZeroArgHttpCallList cls mth body
  | .forStmt body => noZeroArgHttpCallList cls mth body

def noZeroArgHttpCallList (cls mth : List String) : List PyExpr → Bool
  | [] => true
  | e :: rest =>
    noZeroArgHttpCall cls mth e && noZeroArgHttpCallList cls mth rest
end

/-- A test method as consumed by `get_test_key_to_snippet_map`: the
`test_path` attribute stamped on it by `get_test_methods`, its name, and
its body statements. -/
structure TestMethod where
  test_path : String
  name : String
  body : List PyExpr
  deriving Repr

/-- Dict update of `test_parser.py` lines 170–173: create the entry list
if the key is missing, then append `(test_path, name)`. -/
def addMapEntry (m : TestKeyMap) (k : TestKey) (v : TestEntry) : TestKeyMap :=
  match m with
  | [] => [(k, [v])]
  | (k₂, vs) :: rest =>
    if k₂ = k then (k₂, vs ++ [v]) :: rest
    else (k₂, vs) :: addMapEntry rest k v

/-- The `for child_drift_test in children_drift_data` loop: append the
test's data under each discovered key, in order. -/
def addDriftTests (tp nm : String) : TestKeyMap → List DriftTest → TestKeyMap
  | m, [] => m
  | m, t :: rest => addDriftTests tp nm (addMapEntry m t.get_key_tuple (tp, nm)) rest

/-- The `for subexpr in method.body` loop of lines 164–173. -/
def processBody (cls mth : List String) (tp nm : String) :
    TestKeyMap → List PyExpr → Option TestKeyMap
  | m, [] => some m
  | m, e :: rest =>
    match recursor cls mth e with
    | none => none
    | some drift_tests =>
      processBody cls mth tp nm (addDriftTests tp nm m drift_tests) rest

/-- The `for method in test_methods` loop of lines 163–173. -/
def processTestMethods (cls mth : List String) :
    TestKeyMap → List TestMethod → Option TestKeyMap
  | m, [] => some m
  | m, tm :: rest =>
    match processBody cls mth tm.test_path tm.name m tm.body with
    | none => none
    | some m₂ => processTestMethods cls mth m₂ rest

/-- `test_parser.py` lines 91–175, `get_test_key_to_snippet_map`:
build the test-key map from the supplied test methods; `none` models an
uncaught exception from `__recursor__`. -/
def get_test_key_to_snippet_map (cls mth : List String)
    (test_methods : List TestMethod) : Option TestKeyMap :=
  processTestMethods cls mth [] test_methods

/-!
## `core/cli.py`, lines 176–183: region-tag injection

```python
existing_tag_str = elem.attrib.get('region_tags')
existing_tag_list = (
    existing_tag_str.split(',') if existing_tag_str else [])
deduped_tag_list = (
    set(existing_tag_list + method['region_tags']))
elem.set('region_tags', ','.join(deduped_tag_list))
```
-/

/-- `existing_tag_str.split(',') if existing_tag_str else []`: a missing
(`None`) or empty attribute gives `[]`; otherwise Python's `str.split`. -/
def existingTagList (existing_tag_str : Option String) : List String :=
  match existing_tag_str with
  | none => []
  | some s => if s = "" then [] else s.splitOn ","

/-- `cli.py` lines 176–183: the new value of a matched testcase element's
`region_tags` attribute, from its previous value (`none` when the
attribute was absent) and the matched method's `region_tags`. -/
def inject_region_tags (existing_tag_str : Option String)
    (region_tags : List String) : String :=
  String.intercalate ","
    (pyDedup (existingTagList existing_tag_str ++ region_tags))


/-! ## Helper lemmas -/

theorem mem_pyDedup {x : String} : ∀ {l : List String}, x ∈ pyDedup l ↔ x ∈ l := by
  intro l
  induction l with
  | nil => simp [pyDedup]
  | cons y rest ih =>
    simp only [pyDedup, List.mem_cons, List.mem_filter, ih, decide_eq_true_eq]
    constructor
    · rintro (h | ⟨h, _⟩) <;> simp [h]
    · rintro (h | h)
      · exact Or.inl h
      · by_cases hx : x = y
        · exact Or.inl hx
        · exact Or.inr ⟨h, hx⟩

theorem nodup_pyDedup : ∀ (l : List String), (pyDedup l).Nodup := by
  intro l
  induction l with
  | nil => simp [pyDedup]
  | cons y rest ih =>
    simp only [pyDedup, List.nodup_cons, List.mem_filter]
    exact ⟨fun hx => by simp at hx, ih.filter _⟩

theorem pyDedup_ne_nil {l : List String} (h : l ≠ []) : pyDedup l ≠ [] := by
  cases l with
  | nil => exact absurd rfl h
  | cons x rest => simp [pyDedup]

theorem dedupeLoop_spec (ms : List JsonMethod) (seen : List String) :
    ((dedupeLoop ms seen).map methodKey).Nodup ∧
    (∀ m ∈ dedupeLoop ms seen, methodKey m ∉ seen ∧
      ms.find? (fun x => methodKey x == methodKey m) = some m) ∧
    (∀ m ∈ ms, methodKey m ∉ seen →
      methodKey m ∈ (dedupeLoop ms seen).map methodKey) := by
  induction ms generalizing seen with
  | nil => simp [dedupeLoop]
  | cons m rest ih =>
    by_cases hseen : methodKey m ∈ seen
    · obtain ⟨ihn, ihf, ihc⟩ := ih seen
      refine ⟨?_, ?_, ?_⟩
      · simpa [dedupeLoop, hseen] using ihn
      · intro m' hm'
        simp only [dedupeLoop, if_pos hseen] at hm'
        obtain ⟨hns, hfind⟩ := ihf m' hm'
        have hne : (methodKey m == methodKey m') = false := by
          simp only [beq_eq_false_iff_ne, ne_eq]
          intro heq
          exact hns (heq ▸ hseen)
        refine ⟨hns, ?_⟩
        rw [List.find?_cons_of_neg _ (by simp [hne]), hfind]
      · intro x hx hns
        rcases List.mem_cons.mp hx with rfl | hx'
        · exact absurd hseen hns
        · simpa [dedupeLoop, hseen] using ihc x hx' hns
    · obtain ⟨ihn, ihf, ihc⟩ := ih (methodKey m :: seen)
      refine ⟨?_, ?_, ?_⟩
      · simp only [dedupeLoop, if_neg hseen, List.map_cons, List.nodup_cons]
        refine ⟨fun hmem => ?_, ihn⟩
        obtain ⟨m', hm', hkey⟩ := List.mem_map.mp hmem
        exact (ihf m' hm').1 (by simp [hkey])
      · intro m' hm'
        simp only [dedupeLoop, if_neg hseen, List.mem_cons] at hm'
        rcases hm' with rfl | hm'
        · exact ⟨hseen, by simp [List.find?_cons_of_pos]⟩
        · obtain ⟨hns, hfind⟩ := ihf m' hm'
          have hne : methodKey m ≠ methodKey m' := fun heq => hns (by simp [heq])
          refine ⟨fun hc => hns (by simp [hc]), ?_⟩
          rw [List.find?_cons_of_neg _ (by simpa using hne), hfind]
      · intro x hx hns
        rcases List.mem_cons.mp hx with rfl | hx'
        · simp [dedupeLoop, if_neg hseen]
        · by_cases hxm : methodKey x = methodKey m
          · simp [dedupeLoop, if_neg hseen, hxm]
          · have := ihc x hx' (by simp [hns, hxm])
            simp only [dedupeLoop, if_neg hseen, List.map_cons, List.mem_cons]
            exact Or.inr this


set_option maxHeartbeats 1000000 in
/-- If an expression is `ast.parse`-well-formed and contains no
zero-argument HTTP-client call, `__recursor__` terminates normally on it. -/
theorem recursor_total (cls mth : List String) :
    ∀ e, wfExpr e = true → noZeroArgHttpCall cls mth e = true →
      (recursor cls mth e).isSome = true := by
  intro e
  induction e using recursor.induct cls mth with
  | motive_2 =>
    rename_i l
    exact (wfExprList l = true → noZeroArgHttpCallList cls mth l = true →
      (recursorList cls mth l).isSome = true)
  | case1 id => intro _ _; simp [recursor.eq_def]
  | case2 s => intro _ _; simp [recursor.eq_def]
  | case3 => intro _ _; simp [recursor.eq_def]
  | case4 l cs => intro _ _; simp [recursor.eq_def]
  | case5 attr id => intro _ _; simp [recursor.eq_def]
  | case6 v attr hne ih =>
    intro hwf hnz
    simp only [wfExpr] at hwf
    simp only [noZeroArgHttpCall] at hnz
    have hrec : recursor cls mth (v.attribute attr) = recursor cls mth v := by
      rw [recursor.eq_def]
      cases v <;> simp_all
    rw [hrec]
    exact ih hwf hnz
  | case7 fattr id hin =>
    intro hwf hnz
    simp [noZeroArgHttpCall, hin.1, hin.2] at hnz
  | case8 fattr id hin tail s =>
    intro _ _
    simp [recursor.eq_def, hin]
  | case9 fattr id hin a tail hns ih =>
    intro hwf hnz
    have hrec : recursor cls mth (((PyExpr.name id).attribute fattr).call (a :: tail)) =
        recursor cls mth ((PyExpr.name id).attribute fattr) := by
      rw [recursor.eq_def]
      simp only [if_pos hin]
    rw [hrec]
    simp [recursor.eq_def]
  | case10 args fattr id hnin ih =>
    intro hwf hnz
    have hrec : recursor cls mth (((PyExpr.name id).attribute fattr).call args) =
        recursor cls mth ((PyExpr.name id).attribute fattr) := by
      rw [recursor.eq_def]
      simp only [if_neg hnin]
    rw [hrec]
    simp [recursor.eq_def]
  | case11 args fv fattr hne ih =>
    intro hwf hnz
    simp only [wfExpr, Bool.and_eq_true, Bool.not_eq_true'] at hwf
    simp only [noZeroArgHttpCall, Bool.and_eq_true] at hnz
    have hs := ih hwf.1.2 hnz.1.2
    have hrec : recursor cls mth ((fv.attribute fattr).call args) =
        recursor cls mth (fv.attribute fattr) := by
      rw [recursor.eq_def]
      cases fv <;> first
        | exact absurd rfl (hne _)
        | rfl
    rw [hrec]
    exact hs
  | case12 args id hin =>
    intro hwf hnz
    simp [wfExpr, isStmtNode] at hwf
  | case13 args id hnin ih =>
    intro hwf hnz
    simp [wfExpr, isStmtNode] at hwf
  | case14 args v hne ih =>
    intro hwf hnz
    simp [wfExpr, isStmtNode] at hwf
  | case15 f args hna hne ih =>
    intro hwf hnz
    simp only [wfExpr, Bool.and_eq_true, Bool.not_eq_true'] at hwf
    simp only [noZeroArgHttpCall, Bool.and_eq_true] at hnz
    have hs := ih hwf.1.2 hnz.1.2
    have hrec : recursor cls mth (f.call args) = recursor cls mth f := by
      rw [recursor.eq_def]
      cases f <;> first
        | exact absurd rfl (hna _ _)
        | exact absurd rfl (hne _)
        | rfl
    rw [hrec]
    exact hs
  | case16 v ih =>
    intro hwf hnz
    simp only [wfExpr] at hwf
    simp only [noZeroArgHttpCall] at hnz
    have hrec : recursor cls mth v.exprStmt = recursor cls mth v := by
      rw [recursor.eq_def]
    rw [hrec]
    exact ih hwf hnz
  | case17 l =>
    intro hwf hnz
    simp [wfExpr, wfExprList] at hwf
  | case18 l a tail r1 r2 hl ha iha ihl =>
    intro hwf hnz
    rw [recursor.eq_def]
    simp [hl, ha]
  | case19 l a tail hfail iha ihl =>
    intro hwf hnz
    simp only [wfExpr, wfExprList, Bool.and_eq_true] at hwf
    simp only [noZeroArgHttpCall, noZeroArgHttpCallList, Bool.and_eq_true] at hnz
    have h1 := iha hwf.1.2.1 hnz.2.1
    have h2 := ihl hwf.1.1 hnz.1
    obtain ⟨r1, hr1⟩ := Option.isSome_iff_exists.mp h1
    obtain ⟨r2, hr2⟩ := Option.isSome_iff_exists.mp h2
    exact absurd hr2 (hfail r1 r2 hr1)
  | case20 t hnc =>
    intro hwf hnz
    have hrec : recursor cls mth t.assertStmt = some [] := by
      rw [recursor.eq_def]
      cases t <;> first
        | exact absurd rfl (hnc _ _)
        | rfl
    simp [hrec]
  | case21 body ih =>
    intro hwf hnz
    simp only [wfExpr] at hwf
    simp only [noZeroArgHttpCall] at hnz
    have hrec : recursor cls mth (PyExpr.withStmt body) = recursorList cls mth body := by
      rw [recursor.eq_def]
    rw [hrec]
    exact ih hwf hnz
  | case22 body ih =>
    intro hwf hnz
    simp only [wfExpr] at hwf
    simp only [noZeroArgHttpCall] at hnz
    have hrec : recursor cls mth (PyExpr.forStmt body) = recursorList cls mth body := by
      rw [recursor.eq_def]
    rw [hrec]
    exact ih hwf hnz
  | case23 => intro _ _; simp [recursorList.eq_def]
  | case24 a tail r1 r2 htl ha iha ihtl =>
    intro hwf hnz
    rw [recursorList.eq_def]
    simp [htl, ha]
  | case25 a tail hfail iha ihtl =>
    intro hwf hnz
    simp only [wfExprList, Bool.and_eq_true] at hwf
    simp only [noZeroArgHttpCallList, Bool.and_eq_true] at hnz
    have h1 := iha hwf.1 hnz.1
    have h2 := ihtl hwf.2 hnz.2
    obtain ⟨r1, hr1⟩ := Option.isSome_iff_exists.mp h1
    obtain ⟨r2, hr2⟩ := Option.isSome_iff_exists.mp h2
    exact absurd hr2 (hfail r1 r2 hr1)

theorem collect_cons_eq (cwd : String) (kmap : TestKeyMap) (root : String)
    (k : TestKey) (rest : List TestKey) (acc : List TestEntry) :
    collectTestMethods cwd kmap root (k :: rest) acc =
      match lookupKey kmap k with
      | none => collectTestMethods cwd kmap root rest acc
      | some entries =>
        if entries = [] then collectTestMethods cwd kmap root rest acc
        else
          if (pyDedup (entries.map (·.1))).length ≠ 1 then
            .error ("Invalid test-method map: source filepaths " ++
              "within a map entry must be identical!")
          else if strContains (os_path_abspath cwd
              ((pyDedup (entries.map (·.1))).headD "")) root then
            collectTestMethods cwd kmap root rest (acc ++ entries)
          else
            collectTestMethods cwd kmap root rest acc := rfl

theorem collect_error_iff (cwd : String) (kmap : TestKeyMap) (root : String) :
    ∀ (keys : List TestKey) (acc : List TestEntry),
    (∃ e, collectTestMethods cwd kmap root keys acc = .error e) ↔
    (∃ k ∈ keys, ∃ entries, lookupKey kmap k = some entries ∧ entries ≠ [] ∧
      (pyDedup (entries.map (·.1))).length ≠ 1) := by
  intro keys
  induction keys with
  | nil => intro acc; simp [collectTestMethods]
  | cons k rest ih =>
    intro acc
    rw [collect_cons_eq]
    cases hlk : lookupKey kmap k with
    | none =>
      rw [ih acc]
      constructor
      · rintro ⟨k₂, hk₂, hP⟩
        exact ⟨k₂, List.mem_cons_of_mem _ hk₂, hP⟩
      · rintro ⟨k₂, hk₂, hP⟩
        rcases List.mem_cons.mp hk₂ with rfl | hk₂
        · obtain ⟨es, hes, _⟩ := hP
          rw [hlk] at hes
          exact absurd hes (by simp)
        · exact ⟨k₂, hk₂, hP⟩
    | some entries =>
      dsimp only
      by_cases hempty : entries = []
      · rw [if_pos hempty, ih acc]
        constructor
        · rintro ⟨k₂, hk₂, hP⟩
          exact ⟨k₂, List.mem_cons_of_mem _ hk₂, hP⟩
        · rintro ⟨k₂, hk₂, hP⟩
          rcases List.mem_cons.mp hk₂ with rfl | hk₂
          · obtain ⟨es, hes, hne, _⟩ := hP
            rw [hlk] at hes
            cases hes
            exact absurd hempty hne
          · exact ⟨k₂, hk₂, hP⟩
      · rw [if_neg hempty]
        by_cases hlen : (pyDedup (entries.map (·.1))).length = 1
        · rw [if_neg (by simpa using hlen)]
          by_cases hsub : strContains (os_path_abspath cwd
              ((pyDedup (entries.map (·.1))).headD "")) root
          · rw [if_pos hsub, ih (acc ++ entries)]
            constructor
            · rintro ⟨k₂, hk₂, hP⟩
              exact ⟨k₂, List.mem_cons_of_mem _ hk₂, hP⟩
            · rintro ⟨k₂, hk₂, hP⟩
              rcases List.mem_cons.mp hk₂ with rfl | hk₂
              · obtain ⟨es, hes, hne, hlen₂⟩ := hP
                rw [hlk] at hes
                cases hes
                exact absurd hlen hlen₂
              · exact ⟨k₂, hk₂, hP⟩
          · rw [if_neg hsub, ih acc]
            constructor
            · rintro ⟨k₂, hk₂, hP⟩
              exact ⟨k₂, List.mem_cons_of_mem _ hk₂, hP⟩
            · rintro ⟨k₂, hk₂, hP⟩
              rcases List.mem_cons.mp hk₂ with rfl | hk₂
              · obtain ⟨es, hes, hne, hlen₂⟩ := hP
                rw [hlk] at hes
                cases hes
                exact absurd hlen hlen₂
              · exact ⟨k₂, hk₂, hP⟩
        · rw [if_pos (by simpa using hlen)]
          constructor
          · intro _
            exact ⟨k, List.mem_cons_self k rest, entries, hlk, hempty, hlen⟩
          · intro _
            exact ⟨_, rfl⟩

theorem collect_ok_prefix (cwd : String) (kmap : TestKeyMap) (root : String) :
    ∀ (keys : List TestKey) (acc res : List TestEntry),
    collectTestMethods cwd kmap root keys acc = .ok res →
    ∃ extra, res = acc ++ extra := by
  intro keys
  induction keys with
  | nil =>
    intro acc res h
    cases h
    exact ⟨[], by simp⟩
  | cons k rest ih =>
    intro acc res h
    rw [collect_cons_eq] at h
    cases hlk : lookupKey kmap k with
    | none =>
      rw [hlk] at h
      exact ih acc res h
    | some entries =>
      rw [hlk] at h
      dsimp only at h
      by_cases hempty : entries = []
      · rw [if_pos hempty] at h
        exact ih acc res h
      · rw [if_neg hempty] at h
        by_cases hlen : (pyDedup (entries.map (·.1))).length = 1
        · rw [if_neg (by simpa using hlen)] at h
          by_cases hsub : strContains (os_path_abspath cwd
              ((pyDedup (entries.map (·.1))).headD "")) root
          · rw [if_pos hsub] at h
            obtain ⟨extra, hex⟩ := ih _ res h
            exact ⟨entries ++ extra, by simp [hex]⟩
          · rw [if_neg hsub] at h
            exact ih acc res h
        · rw [if_pos (by simpa using hlen)] at h
          cases h



theorem processMethod_ok_frame (cwd : String) (kmap : TestKeyMap) (d d₂ : Drift)
    (h : processMethod cwd kmap d = .ok d₂) :
    d₂.name = d.name ∧ d₂.class_name = d.class_name ∧
    d₂.method_name = d.method_name ∧ d₂.parser = d.parser ∧
    d₂.source_path = d.source_path ∧ d₂.url = d.url ∧
    d₂.http_methods = d.http_methods ∧
    ∃ extra, d₂.test_methods = d.test_methods ++ extra := by
  rw [processMethod] at h
  cases hk : getLookupKeys d with
  | none => rw [hk] at h; cases h
  | some keys =>
    rw [hk] at h
    dsimp only at h
    cases hc : collectTestMethods cwd kmap (os_path_dirname d.source_path)
        keys d.test_methods with
    | error e => rw [hc] at h; cases h
    | ok tms =>
      rw [hc] at h
      cases h
      obtain ⟨extra, hex⟩ := collect_ok_prefix cwd kmap _ keys _ tms hc
      exact ⟨rfl, rfl, rfl, rfl, rfl, rfl, rfl, extra, hex⟩

theorem store_cons_eq (cwd : String) (d : Drift) (rest : List Drift)
    (kmap : TestKeyMap) :
    store_tests_on_methods cwd (d :: rest) kmap =
      match processMethod cwd kmap d with
      | .error e => .error e
      | .ok d₂ =>
        match store_tests_on_methods cwd rest kmap with
        | .error e => .error e
        | .ok rest₂ => .ok (d₂ :: rest₂) := rfl

theorem store_frame (cwd : String) (kmap : TestKeyMap) :
    ∀ (ds ds₂ : List Drift), store_tests_on_methods cwd ds kmap = .ok ds₂ →
    List.Forall₂ (fun d d₂ =>
      d₂.name = d.name ∧ d₂.class_name = d.class_name ∧
      d₂.method_name = d.method_name ∧ d₂.parser = d.parser ∧
      d₂.source_path = d.source_path ∧ d₂.url = d.url ∧
      d₂.http_methods = d.http_methods ∧
      ∃ extra, d₂.test_methods = d.test_methods ++ extra) ds ds₂ := by
  intro ds
  induction ds with
  | nil =>
    intro ds₂ h
    cases h
    exact List.Forall₂.nil
  | cons d rest ih =>
    intro ds₂ h
    rw [store_cons_eq] at h
    cases hp : processMethod cwd kmap d with
    | error e => rw [hp] at h; cases h
    | ok d₂ =>
      rw [hp] at h
      dsimp only at h
      cases hs : store_tests_on_methods cwd rest kmap with
      | error e => rw [hs] at h; cases h
      | ok rest₂ =>
        rw [hs] at h
        cases h
        exact List.Forall₂.cons (processMethod_ok_frame cwd kmap d d₂ hp)
          (ih rest₂ hs)

theorem store_error_iff (cwd : String) (kmap : TestKeyMap) :
    ∀ (ds : List Drift), (∀ d ∈ ds, (getLookupKeys d).isSome = true) →
    ((∃ e, store_tests_on_methods cwd ds kmap = .error e) ↔
      (∃ d ∈ ds, ∃ keys, getLookupKeys d = some keys ∧
        ∃ k ∈ keys, ∃ entries, lookupKey kmap k = some entries ∧
          entries ≠ [] ∧ (pyDedup (entries.map (·.1))).length ≠ 1)) := by
  intro ds
  induction ds with
  | nil => intro _; simp [store_tests_on_methods]
  | cons d rest ih =>
    intro hall
    obtain ⟨keys, hk⟩ := Option.isSome_iff_exists.mp
      (hall d (List.mem_cons_self d rest))
    have ihr := ih (fun x hx => hall x (List.mem_cons_of_mem _ hx))
    rw [store_cons_eq]
    have hpm : processMethod cwd kmap d =
        match collectTestMethods cwd kmap (os_path_dirname d.source_path)
            keys d.test_methods with
        | .error e => .error e
        | .ok tms => .ok { d with test_methods := tms } := by
      rw [processMethod, hk]
      try exact rfl
    cases hc : collectTestMethods cwd kmap (os_path_dirname d.source_path)
        keys d.test_methods with
    | error e =>
      rw [hc] at hpm
      rw [hpm]
      constructor
      · intro _
        obtain ⟨k, hkm, hbad⟩ := (collect_error_iff cwd kmap _ keys _).mp ⟨e, hc⟩
        exact ⟨d, List.mem_cons_self d rest, keys, hk, k, hkm, hbad⟩
      · intro _
        exact ⟨e, rfl⟩
    | ok tms =>
      rw [hc] at hpm
      rw [hpm]
      dsimp only
      constructor
      · intro hL
        cases hs : store_tests_on_methods cwd rest kmap with
        | error e =>
          obtain ⟨d₂, hd₂, hbad⟩ := ihr.mp ⟨e, hs⟩
          exact ⟨d₂, List.mem_cons_of_mem _ hd₂, hbad⟩
        | ok rest₂ =>
          rw [hs] at hL
          obtain ⟨e, he⟩ := hL
          cases he
      · rintro ⟨d₂, hd₂, keys₂, hk₂, k, hkm, hbad⟩
        rcases List.mem_cons.mp hd₂ with rfl | hd₂
        · rw [hk] at hk₂
          cases hk₂
          have : ∃ e, collectTestMethods cwd kmap
              (os_path_dirname d₂.source_path) keys d₂.test_methods = .error e :=
            (collect_error_iff cwd kmap _ keys _).mpr ⟨k, hkm, hbad⟩
          obtain ⟨e, he⟩ := this
          rw [he] at hc
          cases hc
        · obtain ⟨e, he⟩ := ihr.mpr ⟨d₂, hd₂, keys₂, hk₂, k, hkm, hbad⟩
          rw [he]
          exact ⟨e, rfl⟩


/-! ## Claim theorems -/

/-- C4: for every snippet method and every one of its lookup keys present
in the test-key map with a non-empty entry, `store_tests_on_methods`
raises (aborting correlation) if and only if some matched key's entries
carry more than one distinct test source path. (The hypothesis rules out
the unrelated `IndexError` of a `webapp2_router` method with no HTTP
methods, under which the keys themselves are undefined.) -/
theorem store_tests_error_iff_multiple_source_paths (cwd : String) (kmap : TestKeyMap) (ds : List Drift)
    (h : ∀ d ∈ ds, (getLookupKeys d).isSome = true) :
    (∃ e, store_tests_on_methods cwd ds kmap = .error e) ↔
    (∃ d ∈ ds, ∃ keys, getLookupKeys d = some keys ∧
      ∃ k ∈ keys, ∃ entries, lookupKey kmap k = some entries ∧
        entries ≠ [] ∧ 1 < (pyDedup (entries.map (·.1))).length) := by
  rw [store_error_iff cwd kmap ds h]
  constructor <;> rintro ⟨d, hd, keys, hk, k, hkm, entries, hle, hne, hlen⟩ <;>
    refine ⟨d, hd, keys, hk, k, hkm, entries, hle, hne, ?_⟩
  · have hnil : pyDedup (entries.map (·.1)) ≠ [] :=
      pyDedup_ne_nil (by simpa using hne)
    have hpos : 0 < (pyDedup (entries.map (·.1))).length :=
      List.length_pos.mpr hnil
    omega
  · omega

/-- Witness for C4: a map entry with two distinct source paths makes
`store_tests_on_methods` raise. -/
theorem store_tests_error_iff_multiple_source_paths_witness :
    ∃ e, store_tests_on_methods "/cwd"
      [{ name := "f", class_name := "C", method_name := "m",
         parser := "direct_invocation", source_path := "/a/s.py", url := "",
         http_methods := [], test_methods := [] }]
      [(("C", "m"), [("/p1.py", "t1"), ("/p2.py", "t2")])] = .error e := by
  refine (store_tests_error_iff_multiple_source_paths "/cwd" [(("C", "m"), [("/p1.py", "t1"), ("/p2.py", "t2")])]
    [{ name := "f", class_name := "C", method_name := "m",
       parser := "direct_invocation", source_path := "/a/s.py", url := "",
       http_methods := [], test_methods := [] }] (by decide)).mpr ?_
  refine ⟨_, List.mem_singleton.mpr rfl, [("C", "m")], rfl, ("C", "m"),
    List.mem_singleton.mpr rfl, [("/p1.py", "t1"), ("/p2.py", "t2")], rfl,
    by decide, by decide⟩

/-- C5: lookup keys per parser classification — `direct_invocation` gives
the single key `(class_name, method_name)`, `webapp2_router` the single
key `(first declared HTTP method, url)`, and `flask_router` one key
`(method, url)` per declared HTTP method. -/
theorem getLookupKeys_per_parser_kind (d : Drift) :
    (d.parser = "direct_invocation" →
      getLookupKeys d = some [(d.class_name, d.method_name)]) ∧
    (∀ m rest, d.parser = "webapp2_router" → d.http_methods = m :: rest →
      getLookupKeys d = some [(m, d.url)]) ∧
    (d.parser = "flask_router" →
      getLookupKeys d = some (d.http_methods.map (fun m => (m, d.url)))) := by
  refine ⟨fun hp => ?_, fun m rest hp hm => ?_, fun hp => ?_⟩
  · rw [getLookupKeys, if_pos hp]
  · rw [getLookupKeys, if_neg (by rw [hp]; decide), if_pos hp, hm]
  · rw [getLookupKeys, if_neg (by rw [hp]; decide),
      if_neg (by rw [hp]; decide), if_pos hp]

/-- Witness for C5: the three parser kinds evaluated at concrete drifts. -/
theorem getLookupKeys_per_parser_kind_witness :
    getLookupKeys
      ⟨"f", "C", "m", "direct_invocation", "/s.py", "", [], []⟩ =
      some [("C", "m")] ∧
    getLookupKeys
      ⟨"g", "", "", "webapp2_router", "/s.py", "/sign", ["post", "get"], []⟩ =
      some [("post", "/sign")] ∧
    getLookupKeys
      ⟨"h", "", "", "flask_router", "/s.py", "/", ["get", "post"], []⟩ =
      some [("get", "/"), ("post", "/")] := by
  refine ⟨(getLookupKeys_per_parser_kind _).1 rfl, (getLookupKeys_per_parser_kind _).2.1 "post" ["get"] rfl rfl, ?_⟩
  have := (getLookupKeys_per_parser_kind
    ⟨"h", "", "", "flask_router", "/s.py", "/", ["get", "post"], []⟩).2.2 rfl
  simpa using this

/-- C10: on every snippet method on which `store_tests_on_methods`
completes without error, every drift field other than `test_methods` is
unchanged, and the original `test_methods` list is preserved in order as a
prefix of the new list (entries are only appended). -/
theorem store_tests_frame (cwd : String) (kmap : TestKeyMap) (ds ds₂ : List Drift)
    (h : store_tests_on_methods cwd ds kmap = .ok ds₂) :
    List.Forall₂ (fun (d d₂ : Drift) =>
      d₂.name = d.name ∧ d₂.class_name = d.class_name ∧
      d₂.method_name = d.method_name ∧ d₂.parser = d.parser ∧
      d₂.source_path = d.source_path ∧ d₂.url = d.url ∧
      d₂.http_methods = d.http_methods ∧
      ∃ extra, d₂.test_methods = d.test_methods ++ extra) ds ds₂ :=
  store_frame cwd kmap ds ds₂ h

/-- Witness for C10: a successful run at a concrete input. -/
theorem store_tests_frame_witness :
    List.Forall₂ (fun (d d₂ : Drift) =>
      d₂.name = d.name ∧ d₂.class_name = d.class_name ∧
      d₂.method_name = d.method_name ∧ d₂.parser = d.parser ∧
      d₂.source_path = d.source_path ∧ d₂.url = d.url ∧
      d₂.http_methods = d.http_methods ∧
      ∃ extra, d₂.test_methods = d.test_methods ++ extra)
      [{ name := "f", class_name := "C", method_name := "m",
         parser := "direct_invocation", source_path := "/a/s.py", url := "",
         http_methods := [], test_methods := [("/old.py", "t0")] }]
      [{ name := "f", class_name := "C", method_name := "m",
         parser := "direct_invocation", source_path := "/a/s.py", url := "",
         http_methods := [],
         test_methods := [("/old.py", "t0"), ("/a/t.py", "t1")] }] :=
  store_tests_frame "/cwd"
    [(("C", "m"), [("/a/t.py", "t1")])]
    [{ name := "f", class_name := "C", method_name := "m",
       parser := "direct_invocation", source_path := "/a/s.py", url := "",
       http_methods := [], test_methods := [("/old.py", "t0")] }]
    [{ name := "f", class_name := "C", method_name := "m",
       parser := "direct_invocation", source_path := "/a/s.py", url := "",
       http_methods := [],
       test_methods := [("/old.py", "t0"), ("/a/t.py", "t1")] }]
    (by rfl)

/-- C7: for a test file that cannot be read (`IOError`),
`get_test_methods` does not raise: it returns the empty list, so the file
contributes zero test keys. (The stderr diagnostic is I/O and lies outside
the embedding.) -/
theorem get_test_methods_unreadable_file (test_path : String) :
    get_test_methods test_path none = .ok [] := rfl



/-- C3 counterexample: the code's filter is `source_root in
os.path.abspath(path)` — a substring test, not path containment. The test
entry `/x/a/bc/t.py` does not lie under the snippet's root `/a/b`, yet it
is appended to `test_methods` because the string `/a/b` occurs inside
`/x/a/bc/t.py`. -/
theorem path_filter_substring_not_containment :
    store_tests_on_methods "/cwd"
      [⟨"f", "C", "m", "direct_invocation", "/a/b/s.py", "", [], []⟩]
      [(("C", "m"), [("/x/a/bc/t.py", "test_m")])] =
      .ok [⟨"f", "C", "m", "direct_invocation", "/a/b/s.py", "", [],
        [("/x/a/bc/t.py", "test_m")]⟩] ∧
    spec_path_under (os_path_dirname "/a/b/s.py")
      (os_path_abspath "/cwd" "/x/a/bc/t.py") = false :=
  ⟨rfl, rfl⟩

/-- C3 as amended: a matched single-path entry is appended to a snippet's
`test_methods` if and only if the directory of the snippet's source file
occurs as a substring of the absolute test source path (not: if and only
if the test path lies under that directory). -/
theorem store_tests_appends_iff_substring (cwd : String) (d : Drift) (k : TestKey)
    (p tn : String) (hk : getLookupKeys d = some [k]) :
    store_tests_on_methods cwd [d] [(k, [(p, tn)])] =
      .ok [{ d with test_methods := d.test_methods ++
        (if strContains (os_path_abspath cwd p) (os_path_dirname d.source_path)
         then [(p, tn)] else []) }] := by
  rw [store_cons_eq, processMethod, hk]
  dsimp only
  have hlk : lookupKey [(k, [(p, tn)])] k = some [(p, tn)] := by
    simp [lookupKey]
  rw [collect_cons_eq, hlk]
  dsimp only
  rw [if_neg (by simp)]
  have hdedup : pyDedup ([(p, tn)].map (·.1)) = [p] := rfl
  rw [hdedup]
  rw [if_neg (by simp)]
  simp only [List.headD_cons]
  by_cases hsub : strContains (os_path_abspath cwd p) (os_path_dirname d.source_path)
  · rw [if_pos hsub, if_pos hsub]
    rfl
  · rw [if_neg hsub, if_neg hsub, List.append_nil]
    rfl

/-- Witness for amended C3: a concrete in-tree entry is appended. -/
theorem store_tests_appends_iff_substring_witness :
    store_tests_on_methods "/cwd"
      [⟨"f", "C", "m", "direct_invocation", "/a/b/s.py", "", [], []⟩]
      [(("C", "m"), [("/a/b/t.py", "test_m")])] =
      .ok [{ (⟨"f", "C", "m", "direct_invocation", "/a/b/s.py", "", [], []⟩ : Drift) with
        test_methods := ([] : List TestEntry) ++
          (if strContains (os_path_abspath "/cwd" "/a/b/t.py")
              (os_path_dirname "/a/b/s.py")
           then [("/a/b/t.py", "test_m")] else []) }] :=
  store_tests_appends_iff_substring "/cwd" ⟨"f", "C", "m", "direct_invocation", "/a/b/s.py", "", [], []⟩
    ("C", "m") "/a/b/t.py" "test_m" rfl



/-- The duplicate-name loop succeeds exactly when the node names are
pairwise distinct and disjoint from the already-used names. -/
theorem verifyUniqueNames_ok_iff (tp : String) :
    ∀ (ns : List PyNode) (used : List String),
    verifyUniqueNames tp ns used = .ok () ↔
    ((ns.map (fun n => (nodeName n).getD "")).Nodup ∧
      ∀ x ∈ ns.map (fun n => (nodeName n).getD ""), x ∉ used) := by
  intro ns
  induction ns with
  | nil => intro used; simp [verifyUniqueNames]
  | cons n rest ih =>
    intro used
    by_cases hm : (nodeName n).getD "" ∈ used
    · rw [verifyUniqueNames, if_pos hm]
      simp only [List.map_cons, List.nodup_cons, List.mem_cons]
      constructor
      · intro h; cases h
      · rintro ⟨_, hall⟩
        exact absurd hm (hall _ (Or.inl rfl))
    · rw [verifyUniqueNames, if_neg hm, ih]
      simp only [List.map_cons, List.nodup_cons, List.mem_cons]
      constructor
      · rintro ⟨hnd, hall⟩
        refine ⟨⟨fun hmem => hall _ hmem (Or.inl rfl), hnd⟩, ?_⟩
        rintro x (rfl | hx)
        · exact hm
        · exact fun hxu => hall x hx (Or.inr hxu)
      · rintro ⟨⟨hnm, hnd⟩, hall⟩
        refine ⟨hnd, fun x hx => ?_⟩
        rintro (rfl | hxu)
        · exact hnm hx
        · exact hall x (Or.inr hx) hxu

/-- C6: for every readable test file, `get_test_methods` raises rather
than returning a result exactly when the extracted test nodes (top-level
and class-wrapped, named `test_*`) contain two nodes with the same name;
with all-distinct names it returns the full extracted node list. -/
theorem get_test_methods_duplicate_check (test_path : String) (parsed_nodes : List PyNode) :
    (¬ ((get_test_nodes parsed_nodes).map
        (fun n => (nodeName n).getD "")).Nodup →
      ∃ e, get_test_methods test_path (some parsed_nodes) = .error e) ∧
    (((get_test_nodes parsed_nodes).map
        (fun n => (nodeName n).getD "")).Nodup →
      get_test_methods test_path (some parsed_nodes) =
        .ok (get_test_nodes parsed_nodes)) := by
  have hunfold : get_test_methods test_path (some parsed_nodes) =
      match verifyUniqueNames test_path (get_test_nodes parsed_nodes) [] with
      | .error e => .error e
      | .ok _ => .ok (get_test_nodes parsed_nodes) := rfl
  constructor
  · intro hdup
    rw [hunfold]
    cases hv : verifyUniqueNames test_path (get_test_nodes parsed_nodes) [] with
    | error e => exact ⟨e, rfl⟩
    | ok u =>
      cases u
      have := (verifyUniqueNames_ok_iff test_path _ []).mp hv
      exact absurd this.1 hdup
  · intro hnd
    rw [hunfold]
    have hv : verifyUniqueNames test_path (get_test_nodes parsed_nodes) [] = .ok () :=
      (verifyUniqueNames_ok_iff test_path _ []).mpr ⟨hnd, by simp⟩
    rw [hv]

/-- Witness for C6: a duplicated name raises; distinct names return the
full list. -/
theorem get_test_methods_duplicate_check_witness :
    (∃ e, get_test_methods "t.py"
      (some [PyNode.functionDef "test_a" [],
             PyNode.classDef "TestC" [PyNode.functionDef "test_a" []]]) =
      .error e) ∧
    get_test_methods "t.py"
      (some [PyNode.functionDef "test_a" [],
             PyNode.classDef "TestC" [PyNode.functionDef "test_b" []]]) =
      .ok [PyNode.functionDef "test_a" [], PyNode.functionDef "test_b" []] := by
  constructor
  · exact (get_test_methods_duplicate_check "t.py" _).1 (by simp [get_test_nodes, isTestNode, nodeName])
  · have h := (get_test_methods_duplicate_check "t.py"
      [PyNode.functionDef "test_a" [],
       PyNode.classDef "TestC" [PyNode.functionDef "test_b" []]]).2
      (by simp [get_test_nodes, isTestNode, nodeName])
    simpa [get_test_nodes, isTestNode, nodeName] using h

/-- C8: the new `region_tags` attribute value is the comma-join of a
duplicate-free list whose members are exactly the union of the tags
already present in the attribute and the matched snippet's region tags —
no tag from either side is lost and none is duplicated. -/
theorem inject_region_tags_union (existing_tag_str : Option String) (region_tags : List String) :
    inject_region_tags existing_tag_str region_tags =
      String.intercalate ","
        (pyDedup (existingTagList existing_tag_str ++ region_tags)) ∧
    (pyDedup (existingTagList existing_tag_str ++ region_tags)).Nodup ∧
    ∀ t, t ∈ pyDedup (existingTagList existing_tag_str ++ region_tags) ↔
      (t ∈ existingTagList existing_tag_str ∨ t ∈ region_tags) := by
  refine ⟨rfl, nodup_pyDedup _, fun t => ?_⟩
  rw [mem_pyDedup]
  exact List.mem_append



/-- C1 counterexample: two snippet methods whose region-tag sets are equal
as sets (`["a", "b"]` is a permutation of `["b", "a"]`) are NOT merged by
the dedup stage of `analyze_json`: the dedup key `','.join(region_tags)`
is order-sensitive, so both entries survive. -/
theorem analyze_dedupe_not_set_based :
    dedupeSourceMethods
      [⟨"f", "/s.py", ["a", "b"], []⟩, ⟨"g", "/s.py", ["b", "a"], []⟩] =
      [⟨"f", "/s.py", ["a", "b"], []⟩, ⟨"g", "/s.py", ["b", "a"], []⟩] ∧
    (["a", "b"] : List String).Perm ["b", "a"] :=
  ⟨rfl, List.Perm.swap "b" "a" []⟩

/-- C1 as amended: `analyze_json` merges two snippet methods exactly when
their comma-joined `region_tags` lists are equal (same tags in the same
order, up to comma-join collisions) — not when their tag sets are equal as
sets — and the first-encountered method is the one kept: the output keys
are duplicate-free, every kept method with tags is represented, and each
output entry is the first input entry bearing its key. -/
theorem analyze_dedupe_by_joined_tag_list (json_methods : List JsonMethod) :
    ((dedupeSourceMethods json_methods).map methodKey).Nodup ∧
    (∀ m ∈ json_methods.filter (fun m => m.region_tags ≠ []),
      methodKey m ∈ (dedupeSourceMethods json_methods).map methodKey) ∧
    (∀ m ∈ dedupeSourceMethods json_methods,
      (json_methods.filter (fun m => m.region_tags ≠ [])).find?
        (fun x => methodKey x == methodKey m) = some m) := by
  obtain ⟨h1, h2, h3⟩ :=
    dedupeLoop_spec (json_methods.filter (fun m => m.region_tags ≠ [])) []
  exact ⟨h1, fun m hm => h3 m hm (by simp), fun m hm => (h2 m hm).2⟩

/-- Witness for amended C1: two methods with identical tag lists collapse
to the first. -/
theorem analyze_dedupe_by_joined_tag_list_witness :
    methodKey (⟨"g", "/s.py", ["a", "b"], []⟩ : JsonMethod) ∈
      (dedupeSourceMethods [⟨"f", "/s.py", ["a", "b"], []⟩,
        ⟨"g", "/s.py", ["a", "b"], []⟩]).map methodKey ∧
    List.find?
      (fun x => methodKey x == methodKey (⟨"f", "/s.py", ["a", "b"], []⟩ : JsonMethod))
      (List.filter (fun m => m.region_tags ≠ [])
        ([⟨"f", "/s.py", ["a", "b"], []⟩, ⟨"g", "/s.py", ["a", "b"], []⟩] :
          List JsonMethod)) =
      some ⟨"f", "/s.py", ["a", "b"], []⟩ :=
  ⟨(analyze_dedupe_by_joined_tag_list _).2.1 _ (by decide), (analyze_dedupe_by_joined_tag_list _).2.2 _ (by decide)⟩

/-- C2 counterexample: a tag ignored only via the YAML configuration
(`"t"` is in the returned ignored list) still appears in both the
returned detected (grep) tags and source tags, because `analyze_json`
unions the YAML-ignored names into `ignored_tags` only after filtering. -/
theorem yaml_ignored_tag_still_reported :
    "t" ∈ (analyzeTagSets [⟨[("t", 1, 2)], []⟩]
      [⟨"f", "/s.py", ["t"], []⟩] ["t"]).2.2 ∧
    "t" ∈ (analyzeTagSets [⟨[("t", 1, 2)], []⟩]
      [⟨"f", "/s.py", ["t"], []⟩] ["t"]).1 ∧
    "t" ∈ (analyzeTagSets [⟨[("t", 1, 2)], []⟩]
      [⟨"f", "/s.py", ["t"], []⟩] ["t"]).2.1 := by
  refine ⟨?_, ?_, ?_⟩ <;> decide

/-- C2 as amended: a tag ignored via an in-source marker never appears in
the returned detected (grep) tags or source tags; tags ignored via the
YAML configuration are added to the returned ignored list but are not
removed from the other two lists. -/
theorem marker_ignored_tags_filtered (per_file : List ParserOutput)
    (source_methods : List JsonMethod) (yaml_ignored : List String)
    (t : String) (o : ParserOutput) (ho : o ∈ per_file)
    (ht : t ∈ o.ignored_tag_names) :
    t ∉ (analyzeTagSets per_file source_methods yaml_ignored).1 ∧
    t ∉ (analyzeTagSets per_file source_methods yaml_ignored).2.1 ∧
    t ∈ (analyzeTagSets per_file source_methods yaml_ignored).2.2 ∧
    ∀ u ∈ yaml_ignored,
      u ∈ (analyzeTagSets per_file source_methods yaml_ignored).2.2 := by
  have hmem : t ∈ pyDedup (per_file.flatMap (fun o => o.ignored_tag_names)) :=
    mem_pyDedup.mpr (List.mem_flatMap.mpr ⟨o, ho, ht⟩)
  simp only [analyzeTagSets]
  refine ⟨?_, ?_, ?_, ?_⟩
  · intro hc
    have := (List.mem_filter.mp hc).2
    simp only [decide_eq_true_eq] at this
    exact this hmem
  · intro hc
    have := (List.mem_filter.mp hc).2
    simp only [decide_eq_true_eq] at this
    exact this hmem
  · exact mem_pyDedup.mpr (List.mem_append.mpr (Or.inl hmem))
  · intro u hu
    exact mem_pyDedup.mpr (List.mem_append.mpr (Or.inr hu))

/-- Witness for amended C2: a marker-ignored tag is filtered from both
lists at a concrete input. -/
theorem marker_ignored_tags_filtered_witness :
    "t" ∉ (analyzeTagSets [⟨[("u", 1, 2), ("t", 3, 4)], ["t"]⟩]
      [⟨"f", "/s.py", ["u"], []⟩] ["y"]).1 ∧
    "t" ∉ (analyzeTagSets [⟨[("u", 1, 2), ("t", 3, 4)], ["t"]⟩]
      [⟨"f", "/s.py", ["u"], []⟩] ["y"]).2.1 ∧
    "t" ∈ (analyzeTagSets [⟨[("u", 1, 2), ("t", 3, 4)], ["t"]⟩]
      [⟨"f", "/s.py", ["u"], []⟩] ["y"]).2.2 ∧
    ∀ u ∈ ["y"], u ∈ (analyzeTagSets [⟨[("u", 1, 2), ("t", 3, 4)], ["t"]⟩]
      [⟨"f", "/s.py", ["u"], []⟩] ["y"]).2.2 :=
  marker_ignored_tags_filtered [⟨[("u", 1, 2), ("t", 3, 4)], ["t"]⟩]
    [⟨"f", "/s.py", ["u"], []⟩] ["y"] "t" ⟨[("u", 1, 2), ("t", 3, 4)], ["t"]⟩
    (by decide) (by decide)



/-- A test-method body of well-formed, zero-arg-call-free statements is
processed without an exception. -/
theorem processBody_isSome (cls mth : List String) (tp nm : String) :
    ∀ (body : List PyExpr) (m : TestKeyMap),
    wfExprList body = true → noZeroArgHttpCallList cls mth body = true →
    (processBody cls mth tp nm m body).isSome = true := by
  intro body
  induction body with
  | nil => intro m _ _; simp [processBody]
  | cons e rest ih =>
    intro m hwf hnz
    simp only [wfExprList, Bool.and_eq_true] at hwf
    simp only [noZeroArgHttpCallList, Bool.and_eq_true] at hnz
    obtain ⟨dts, hdts⟩ := Option.isSome_iff_exists.mp
      (recursor_total cls mth e hwf.1 hnz.1)
    have hu : processBody cls mth tp nm m (e :: rest) =
        match recursor cls mth e with
        | none => none
        | some drift_tests =>
          processBody cls mth tp nm (addDriftTests tp nm m drift_tests) rest := rfl
    rw [hu, hdts]
    exact ih _ hwf.2 hnz.2

/-- Test methods whose bodies satisfy the totality precondition are all
processed without an exception. -/
theorem processTestMethods_isSome (cls mth : List String) :
    ∀ (tms : List TestMethod) (m : TestKeyMap),
    (∀ tm ∈ tms, wfExprList tm.body = true ∧
      noZeroArgHttpCallList cls mth tm.body = true) →
    (processTestMethods cls mth m tms).isSome = true := by
  intro tms
  induction tms with
  | nil => intro m _; simp [processTestMethods]
  | cons tm rest ih =>
    intro m hall
    obtain ⟨hwf, hnz⟩ := hall tm (List.mem_cons_self tm rest)
    obtain ⟨m₂, hm₂⟩ := Option.isSome_iff_exists.mp
      (processBody_isSome cls mth tm.test_path tm.name tm.body m hwf hnz)
    have hu : processTestMethods cls mth m (tm :: rest) =
        match processBody cls mth tm.test_path tm.name m tm.body with
        | none => none
        | some m₂ => processTestMethods cls mth m₂ rest := rfl
    rw [hu, hm₂]
    exact ih _ (fun x hx => hall x (List.mem_cons_of_mem _ hx))

/-- C9: the recursive key resolver of `get_test_key_to_snippet_map` is
total only under the precondition that every call whose callee is
`receiver.verb` with `receiver` among the HTTP client names and `verb`
among the HTTP method names has at least one argument: under that
precondition (on `ast.parse`-well-formed bodies) the map is built, and for
an input containing such a call with zero arguments the access
`expr.args[0]` is out of bounds and the function raises instead of
contributing no key. -/
theorem recursor_zero_arg_call_crash :
    (∀ (cls mth : List String) (test_methods : List TestMethod),
      (∀ tm ∈ test_methods, wfExprList tm.body = true ∧
        noZeroArgHttpCallList cls mth tm.body = true) →
      (get_test_key_to_snippet_map cls mth test_methods).isSome = true) ∧
    (∀ (cls mth : List String) (tp nm receiver verb : String),
      receiver ∈ cls → verb ∈ mth →
      get_test_key_to_snippet_map cls mth
        [⟨tp, nm, [.call (.attribute (.name receiver) verb) []]⟩] = none) := by
  constructor
  · intro cls mth tms hall
    exact processTestMethods_isSome cls mth tms [] hall
  · intro cls mth tp nm receiver verb hr hv
    have hcrash : recursor cls mth
        (.call (.attribute (.name receiver) verb) []) = none := by
      rw [recursor.eq_def]
      dsimp only
      rw [if_pos ⟨hr, hv⟩]
    have hbody : processBody cls mth tp nm []
        [.call (.attribute (.name receiver) verb) []] = none := by
      have hu : processBody cls mth tp nm []
          [.call (.attribute (.name receiver) verb) []] =
          match recursor cls mth
              (.call (.attribute (.name receiver) verb) []) with
          | none => none
          | some drift_tests =>
            processBody cls mth tp nm (addDriftTests tp nm [] drift_tests) [] := rfl
      rw [hu, hcrash]
    have hu₂ : get_test_key_to_snippet_map cls mth
        [⟨tp, nm, [.call (.attribute (.name receiver) verb) []]⟩] =
        match processBody cls mth tp nm []
            [.call (.attribute (.name receiver) verb) []] with
        | none => none
        | some m₂ => processTestMethods cls mth m₂ [] := rfl
    rw [hu₂, hbody]

/-- Witness for C9: a one-argument client call is resolved; the same call
with zero arguments raises. -/
theorem recursor_zero_arg_call_crash_witness :
    (get_test_key_to_snippet_map ["client"] ["get"]
      [⟨"/a/t.py", "test_a",
        [.exprStmt (.call (.attribute (.name "client") "get")
          [.strLit "/x"])]⟩]).isSome = true ∧
    get_test_key_to_snippet_map ["client"] ["get"]
      [⟨"/a/t.py", "test_b",
        [.call (.attribute (.name "client") "get") []]⟩] = none :=
  ⟨recursor_zero_arg_call_crash.1 ["client"] ["get"] _ (by decide),
   recursor_zero_arg_call_crash.2 ["client"] ["get"] "/a/t.py" "test_b" "client" "get"
     (by decide) (by decide)⟩

end AstParser
